import Mathlib

/-!
Shallow embedding of the LAB4 single-leader replicated key-value store
(src/LAB4/leader.py and src/LAB4/follower.py).

The store on each node is a mapping from keys to `{value, version}` entries
(`data_store` in both Python files).  The leader mints versions from a
process-wide counter (`version_counter`), applies its own write
unconditionally, and fans the write out to the five followers; the quorum
loop in `replicate_to_followers` consumes follower outcomes in arrival
order, returning early on quorum success or provable quorum failure.
A follower's `/replicate` handler applies an incoming write only when no
entry exists for the key or the incoming version is strictly greater.

Arrival-order nondeterminism is modelled by passing the list of per-follower
outcomes (`True` = the HTTP call returned status 200) in arrival order.
-/

namespace RepKV

/-- One stored entry: `{"value": value, "version": version}`. -/
structure Entry where
  value : String
  version : Nat
deriving DecidableEq, Repr

/-- A node's in-memory `data_store`. -/
def Store := String → Option Entry

/-- The empty store both nodes start from (`data_store = {}`). -/
def emptyStore : Store := fun _ => none

/-- JSON body of a `/replicate` POST; each field may be missing. -/
structure ReplicateRequest where
  key : Option String
  value : Option String
  version : Option Nat
deriving DecidableEq, Repr

/-- Follower `/replicate` response: HTTP 400 on missing fields, otherwise an
HTTP 200 acknowledgment carrying the `updated` flag. -/
inductive ReplicateResponse where
  | badRequest
  | acked (updated : Bool)
deriving DecidableEq, Repr

/-- The HTTP status code of a follower `/replicate` response. -/
def statusCode : ReplicateResponse → Nat
  | .badRequest => 400
  | .acked _ => 200

namespace Follower

/-- Follower `/replicate` handler (follower.py lines 23-48): validate the
three fields, then apply the write only if no entry exists for the key or the
incoming version is strictly greater than the stored one; a stale version is
acknowledged with HTTP 200 and `updated: false`, leaving the store unchanged. -/
def replicate (store : Store) (req : ReplicateRequest) : Store × ReplicateResponse :=
  match req.key, req.value, req.version with
  | some k, some v, some n =>
    match store k with
    | none => (fun k' => if k' = k then some ⟨v, n⟩ else store k', .acked true)
    | some e =>
      if n > e.version then
        (fun k' => if k' = k then some ⟨v, n⟩ else store k', .acked true)
      else
        (store, .acked false)
  | _, _, _ => (store, .badRequest)

end Follower

/-- Outcome the leader's `replicate_to_follower` derives from a follower
response (leader.py line 48): `response.status_code == 200`. -/
def followerAck (resp : ReplicateResponse) : Bool := statusCode resp == 200

namespace Leader

/-- The loop body of `replicate_to_followers` (leader.py lines 75-100),
consuming follower outcomes in arrival order with running success and
failure counters.  On a success, return `true` as soon as the quorum is
reached; otherwise check whether the quorum is still reachable
(`successful + remaining < WRITE_QUORUM`) and return `false` if not; after
all outcomes, return `successful >= WRITE_QUORUM`.  `F` is the follower
count, `Q` the configured `WRITE_QUORUM` (an arbitrary integer, as in
Python). -/
def replicateLoop (F : Nat) (Q : Int) : Int → Int → List Bool → Bool
  | s, _, [] => decide (Q ≤ s)
  | s, f, ok :: rest =>
    if ok then
      if Q ≤ s + 1 then true
      else if s + 1 + ((F : Int) - (s + 1 + f)) < Q then false
      else replicateLoop F Q (s + 1) f rest
    else
      if s + ((F : Int) - (s + (f + 1))) < Q then false
      else replicateLoop F Q s (f + 1) rest

/-- `replicate_to_followers` (leader.py lines 54-104): start both counters at
zero and run the arrival-order loop. -/
def replicate_to_followers (F : Nat) (Q : Int) (outcomes : List Bool) : Bool :=
  replicateLoop F Q 0 0 outcomes

/-- Leader node state: its `data_store` and the global `version_counter`. -/
structure LeaderState where
  data_store : Store
  version_counter : Nat

/-- The leader node at startup: empty store and counter 0. -/
def initLeader : LeaderState := ⟨emptyStore, 0⟩

/-- Response of the leader's `/write` endpoint. -/
inductive WriteResponse where
  | badRequest
  | success (key value : String) (version : Nat)
  | partial_success (key value : String) (version : Nat)
deriving DecidableEq, Repr

/-- The leader's `/write` handler (leader.py lines 107-139): reject a missing
key or value with no side effect; otherwise increment the version counter,
overwrite the leader's own store entry with the fresh version, replicate to
the followers, and report `success` exactly when the quorum was met,
`partial_success` otherwise — never rolling back the local write. -/
def write (F : Nat) (Q : Int) (st : LeaderState) (key value : Option String)
    (outcomes : List Bool) : LeaderState × WriteResponse :=
  match key, value with
  | some k, some v =>
    let current_version := st.version_counter + 1
    let st' : LeaderState :=
      { data_store := fun k' => if k' = k then some ⟨v, current_version⟩ else st.data_store k'
        version_counter := current_version }
    if replicate_to_followers F Q outcomes then
      (st', .success k v current_version)
    else
      (st', .partial_success k v current_version)
  | _, _ => (st, .badRequest)

/-- Response of the `/read` endpoint (identical code on both nodes). -/
inductive ReadResponse where
  | badRequest
  | notFound
  | found (key value : String) (version : Nat)
deriving DecidableEq, Repr

/-- The `/read` handler (leader.py lines 142-156): 400 on a missing key
parameter, 404 on a miss, otherwise the stored value and version. -/
def read (st : LeaderState) (key : Option String) : ReadResponse :=
  match key with
  | none => .badRequest
  | some k =>
    match st.data_store k with
    | none => .notFound
    | some e => .found k e.value e.version

/-- One external write request: body fields plus the arrival-ordered
follower outcomes of its replication fan-out. -/
structure WriteRequest where
  key : Option String
  value : Option String
  outcomes : List Bool

/-- A sequence of `/write` requests processed by the leader, threading the
leader state and collecting the responses. -/
def runWrites (F : Nat) (Q : Int) (st : LeaderState) :
    List WriteRequest → LeaderState × List WriteResponse
  | [] => (st, [])
  | r :: rs =>
    let p := write F Q st r.key r.value r.outcomes
    let q := runWrites F Q p.1 rs
    (q.1, p.2 :: q.2)

/-- The version an accepted write's response carries, if any. -/
def versionOf : WriteResponse → Option Nat
  | .badRequest => none
  | .success _ _ n => some n
  | .partial_success _ _ n => some n

/-- The versions assigned to the accepted writes of a response sequence. -/
def assignedVersions (resps : List WriteResponse) : List Nat :=
  resps.filterMap versionOf

end Leader

/-- Number of successes in an arrival-ordered outcome list. -/
def countTrue : List Bool → Int
  | [] => 0
  | b :: rest => (if b then 1 else 0) + countTrue rest

/-- Number of failures in an arrival-ordered outcome list. -/
def countFalse : List Bool → Int
  | [] => 0
  | b :: rest => (if b then 0 else 1) + countFalse rest

/-- A replication delivery `(key, value, version)` to a follower. -/
def Delivery := String × String × Nat

/-- Apply one delivery to a follower's store through the `/replicate`
handler, keeping only the store. -/
def applyDelivery (store : Store) (d : Delivery) : Store :=
  (Follower.replicate store ⟨some d.1, some d.2.1, some d.2.2⟩).1

/-- Apply a finite sequence of deliveries to a follower's store in arrival
order. -/
def runDeliveries (store : Store) : List Delivery → Store
  | [] => store
  | d :: ds => runDeliveries (applyDelivery store d) ds

/-- The versions delivered for a given key, in arrival order. -/
def versionsFor (k : String) : List Delivery → List Nat
  | [] => []
  | d :: ds => if d.1 = k then d.2.2 :: versionsFor k ds else versionsFor k ds

theorem countTrue_nonneg : ∀ l : List Bool, 0 ≤ countTrue l
  | [] => le_refl 0
  | b :: rest => by
      have h := countTrue_nonneg rest
      simp only [countTrue]
      cases b <;> simp <;> omega

theorem countTrue_le_length : ∀ l : List Bool, countTrue l ≤ l.length
  | [] => le_refl 0
  | b :: rest => by
      have h := countTrue_le_length rest
      simp only [countTrue, List.length_cons]
      cases b <;> simp <;> omega

theorem countFalse_nonneg : ∀ l : List Bool, 0 ≤ countFalse l
  | [] => le_refl 0
  | b :: rest => by
      have h := countFalse_nonneg rest
      simp only [countFalse]
      cases b <;> simp <;> omega

theorem countTrue_add_countFalse : ∀ l : List Bool, countTrue l + countFalse l = l.length
  | [] => by simp [countTrue, countFalse]
  | b :: rest => by
      have h := countTrue_add_countFalse rest
      simp only [countTrue, countFalse, List.length_cons]
      cases b <;> simp <;> omega

/-- The arrival-order loop decides exactly `Q ≤ s + countTrue outcomes` when
the outcomes account for every follower not yet counted. -/
theorem replicateLoop_eq (F : Nat) (Q : Int) :
    ∀ (outcomes : List Bool) (s f : Int),
      s + f + outcomes.length = F →
      Leader.replicateLoop F Q s f outcomes = decide (Q ≤ s + countTrue outcomes)
  | [], s, f, h => by
      simp only [Leader.replicateLoop, countTrue, add_zero]
  | true :: rest, s, f, h => by
      have hct := countTrue_nonneg rest
      have hcl := countTrue_le_length rest
      simp only [List.length_cons] at h
      push_cast at h
      have e1 : Leader.replicateLoop F Q s f (true :: rest)
          = (if Q ≤ s + 1 then true
             else if s + 1 + ((F : Int) - (s + 1 + f)) < Q then false
             else Leader.replicateLoop F Q (s + 1) f rest) := by
        simp [Leader.replicateLoop]
      have e2 : countTrue (true :: rest) = 1 + countTrue rest := by
        simp [countTrue]
      rw [e1, e2]
      by_cases h1 : Q ≤ s + 1
      · rw [if_pos h1]
        have hgoal : Q ≤ s + (1 + countTrue rest) := by omega
        simp [hgoal]
      · rw [if_neg h1]
        by_cases h2 : s + 1 + ((F : Int) - (s + 1 + f)) < Q
        · rw [if_pos h2]
          have hgoal : ¬ Q ≤ s + (1 + countTrue rest) := by omega
          simp [hgoal]
        · rw [if_neg h2]
          rw [replicateLoop_eq F Q rest (s + 1) f (by omega)]
          rw [decide_eq_decide]
          omega
  | false :: rest, s, f, h => by
      have hct := countTrue_nonneg rest
      have hcl := countTrue_le_length rest
      simp only [List.length_cons] at h
      push_cast at h
      have e1 : Leader.replicateLoop F Q s f (false :: rest)
          = (if s + ((F : Int) - (s + (f + 1))) < Q then false
             else Leader.replicateLoop F Q s (f + 1) rest) := by
        simp [Leader.replicateLoop]
      have e2 : countTrue (false :: rest) = countTrue rest := by
        simp [countTrue]
      rw [e1, e2]
      by_cases h2 : s + ((F : Int) - (s + (f + 1))) < Q
      · rw [if_pos h2]
        have hgoal : ¬ Q ≤ s + countTrue rest := by omega
        simp [hgoal]
      · rw [if_neg h2]
        rw [replicateLoop_eq F Q rest s (f + 1) (by omega)]

/-- `replicate_to_followers` on a complete arrival order returns `true`
exactly when at least `Q` outcomes are successes. -/
theorem replicate_to_followers_iff (F : Nat) (Q : Int) (outcomes : List Bool)
    (h : outcomes.length = F) :
    Leader.replicate_to_followers F Q outcomes = decide (Q ≤ countTrue outcomes) := by
  have := replicateLoop_eq F Q outcomes 0 0 (by push_cast [h]; omega)
  simpa [Leader.replicate_to_followers] using this

/-- A delivery for a different key leaves the store unchanged at `k`. -/
theorem applyDelivery_other (store : Store) (d : Delivery) (k : String) (hk : k ≠ d.1) :
    applyDelivery store d k = store k := by
  obtain ⟨k0, v0, n0⟩ := d
  simp only [applyDelivery, Follower.replicate]
  cases h0 : store k0 with
  | none => simp [hk]
  | some e0 => by_cases h1 : n0 > e0.version <;> simp [h1, hk]

/-- A single delivery never decreases the stored version at any key. -/
theorem applyDelivery_mono (store : Store) (d : Delivery) (k : String) (e : Entry)
    (he : store k = some e) :
    ∃ e', applyDelivery store d k = some e' ∧ e.version ≤ e'.version := by
  obtain ⟨k0, v0, n0⟩ := d
  by_cases hk : k = k0
  · subst hk
    simp only [applyDelivery, Follower.replicate, he]
    by_cases h1 : n0 > e.version
    · exact ⟨⟨v0, n0⟩, by simp [h1], le_of_lt h1⟩
    · exact ⟨e, by simp [h1, he], le_refl _⟩
  · rw [applyDelivery_other store (k0, v0, n0) k hk]
    exact ⟨e, he, le_refl _⟩

/-- Delivering `(k, v, n)` leaves the store at `k` holding a version `≥ n`. -/
theorem applyDelivery_self (store : Store) (k v : String) (n : Nat) :
    ∃ e', applyDelivery store (k, v, n) k = some e' ∧ n ≤ e'.version := by
  simp only [applyDelivery, Follower.replicate]
  cases h0 : store k with
  | none => exact ⟨⟨v, n⟩, by simp, le_refl _⟩
  | some e0 =>
    by_cases h1 : n > e0.version
    · exact ⟨⟨v, n⟩, by simp [h1], le_refl _⟩
    · exact ⟨e0, by simp [h1, h0], by omega⟩

/-- A delivery for `k` leaves the store at `k` holding either the delivered
entry or what was there before. -/
theorem applyDelivery_key_cases (store : Store) (k v : String) (n : Nat) :
    applyDelivery store (k, v, n) k = some ⟨v, n⟩
    ∨ applyDelivery store (k, v, n) k = store k := by
  simp only [applyDelivery, Follower.replicate]
  cases h0 : store k with
  | none => left; simp
  | some e0 =>
    by_cases h1 : n > e0.version
    · left; simp [h1]
    · right; simp [h1, h0]

/-- A delivery sequence never decreases the stored version at any key. -/
theorem runDeliveries_mono :
    ∀ (ds : List Delivery) (store : Store) (k : String) (e : Entry),
      store k = some e →
      ∃ e', runDeliveries store ds k = some e' ∧ e.version ≤ e'.version
  | [], _, _, e, he => ⟨e, he, le_refl _⟩
  | d :: ds, store, k, e, he => by
      obtain ⟨e1, h1, h2⟩ := applyDelivery_mono store d k e he
      obtain ⟨e2, h3, h4⟩ := runDeliveries_mono ds (applyDelivery store d) k e1 h1
      exact ⟨e2, by simpa [runDeliveries] using h3, le_trans h2 h4⟩

/-- After a delivery sequence the stored version at `k` dominates every
version delivered for `k`. -/
theorem runDeliveries_ub :
    ∀ (ds : List Delivery) (store : Store) (k : String) (e : Entry),
      runDeliveries store ds k = some e →
      ∀ m ∈ versionsFor k ds, m ≤ e.version
  | [], _, k, _, _ => by simp [versionsFor]
  | (k0, v0, n0) :: ds, store, k, e, hrun => by
      intro m hm
      have hrun' : runDeliveries (applyDelivery store (k0, v0, n0)) ds k = some e := by
        simpa [runDeliveries] using hrun
      by_cases hk : k0 = k
      · subst hk
        have hcons : versionsFor k0 ((k0, v0, n0) :: ds) = n0 :: versionsFor k0 ds := by
          simp [versionsFor]
        rw [hcons] at hm
        rcases List.mem_cons.mp hm with hma | hmb
        · subst hma
          obtain ⟨e1, h1, h2⟩ := applyDelivery_self store k0 v0 m
          obtain ⟨e2, h3, h4⟩ := runDeliveries_mono ds _ k0 e1 h1
          rw [hrun'] at h3
          cases h3
          omega
        · exact runDeliveries_ub ds _ k0 e hrun' m hmb
      · have hcons : versionsFor k ((k0, v0, n0) :: ds) = versionsFor k ds := by
          simp [versionsFor, hk]
        rw [hcons] at hm
        exact runDeliveries_ub ds _ k e hrun' m hm

/-- Every stored entry after a delivery sequence is either the initial one or
comes from some delivery in the sequence. -/
theorem runDeliveries_origin :
    ∀ (ds : List Delivery) (store : Store) (k : String) (e : Entry),
      runDeliveries store ds k = some e →
      store k = some e ∨ (k, e.value, e.version) ∈ ds
  | [], _, _, _, h => Or.inl h
  | d :: ds, store, k, e, hrun => by
      have hrun' : runDeliveries (applyDelivery store d) ds k = some e := by
        simpa [runDeliveries] using hrun
      rcases runDeliveries_origin ds (applyDelivery store d) k e hrun' with h | h
      · obtain ⟨k0, v0, n0⟩ := d
        by_cases hk : k = k0
        · subst hk
          rcases applyDelivery_key_cases store k v0 n0 with hc | hc
          · rw [hc] at h
            injection h with h2
            right
            rw [← h2]
            exact List.mem_cons_self _ _
          · rw [hc] at h
            exact Or.inl h
        · rw [applyDelivery_other store (k0, v0, n0) k hk] at h
          exact Or.inl h
      · exact Or.inr (List.mem_cons_of_mem _ h)

/-- Once at least one delivery for `k` is in the sequence, the final store
holds an entry for `k`. -/
theorem runDeliveries_some :
    ∀ (ds : List Delivery) (store : Store) (k : String),
      versionsFor k ds ≠ [] → ∃ e, runDeliveries store ds k = some e
  | [], _, k, hne => absurd rfl hne
  | (k0, v0, n0) :: ds, store, k, hne => by
      by_cases hk : k0 = k
      · subst hk
        obtain ⟨e1, h1, _⟩ := applyDelivery_self store k0 v0 n0
        obtain ⟨e2, h3, _⟩ := runDeliveries_mono ds _ k0 e1 h1
        exact ⟨e2, by simpa [runDeliveries] using h3⟩
      · have hne' : versionsFor k ds ≠ [] := by
          simpa [versionsFor, hk] using hne
        obtain ⟨e, he⟩ := runDeliveries_some ds (applyDelivery store (k0, v0, n0)) k hne'
        exact ⟨e, by simpa [runDeliveries] using he⟩

/-- A delivery for `k` contributes its version to `versionsFor k`. -/
theorem mem_versionsFor (k v : String) (n : Nat) :
    ∀ ds : List Delivery, (k, v, n) ∈ ds → n ∈ versionsFor k ds
  | [], h => absurd h (List.not_mem_nil _)
  | d :: ds, h => by
      rcases List.mem_cons.mp h with h | h
      · rw [← h]
        simp [versionsFor]
      · by_cases hk : d.1 = k
        · have hcons : versionsFor k (d :: ds) = d.2.2 :: versionsFor k ds := by
            simp [versionsFor, hk]
          rw [hcons]
          exact List.mem_cons.mpr (Or.inr (mem_versionsFor k v n ds h))
        · have hcons : versionsFor k (d :: ds) = versionsFor k ds := by
            simp [versionsFor, hk]
          rw [hcons]
          exact mem_versionsFor k v n ds h

theorem replicateLoop_cons_true (F : Nat) (Q : Int) (s f : Int) (rest : List Bool) :
    Leader.replicateLoop F Q s f (true :: rest)
      = (if Q ≤ s + 1 then true
         else if s + 1 + ((F : Int) - (s + 1 + f)) < Q then false
         else Leader.replicateLoop F Q (s + 1) f rest) := by
  simp [Leader.replicateLoop]

theorem replicateLoop_cons_false (F : Nat) (Q : Int) (s f : Int) (rest : List Bool) :
    Leader.replicateLoop F Q s f (false :: rest)
      = (if s + ((F : Int) - (s + (f + 1))) < Q then false
         else Leader.replicateLoop F Q s (f + 1) rest) := by
  simp [Leader.replicateLoop]

/-- Once the failure counter makes the quorum unreachable, the loop returns
`false` on any remaining outcomes that fit among the followers. -/
theorem replicateLoop_unreachable (F : Nat) (Q : Int) :
    ∀ (outcomes : List Bool) (s f : Int),
      s + f + outcomes.length ≤ F → (F : Int) - f < Q →
      Leader.replicateLoop F Q s f outcomes = false
  | [], s, f, hlen, hcond => by
      simp only [List.length_nil] at hlen
      push_cast at hlen
      simp only [Leader.replicateLoop]
      have hns : ¬ Q ≤ s := by omega
      simp [hns]
  | true :: rest, s, f, hlen, hcond => by
      simp only [List.length_cons] at hlen
      push_cast at hlen
      have hrl : (0 : Int) ≤ rest.length := Int.natCast_nonneg _
      rw [replicateLoop_cons_true]
      rw [if_neg (by omega), if_pos (by omega)]
  | false :: rest, s, f, hlen, hcond => by
      simp only [List.length_cons] at hlen
      push_cast at hlen
      rw [replicateLoop_cons_false]
      rw [if_pos (by omega)]

/-- Once a processed arrival-order prefix has enough failures to make the
quorum unreachable, the loop returns `false` whatever the remaining
outcomes are. -/
theorem replicateLoop_early_failure (F : Nat) (Q : Int) :
    ∀ (pre : List Bool) (s f : Int) (rest : List Bool),
      s + f + pre.length + rest.length ≤ F →
      (F : Int) - (f + countFalse pre) < Q →
      Leader.replicateLoop F Q s f (pre ++ rest) = false
  | [], s, f, rest, hlen, hcond => by
      simp only [List.nil_append]
      refine replicateLoop_unreachable F Q rest s f ?_ ?_
      · simp only [List.length_nil] at hlen
        push_cast at hlen ⊢
        omega
      · simp only [countFalse] at hcond
        omega
  | true :: pre, s, f, rest, hlen, hcond => by
      have hcf := countFalse_nonneg pre
      simp only [List.length_cons] at hlen
      push_cast at hlen
      have hrl : (0 : Int) ≤ rest.length := Int.natCast_nonneg _
      have hpl : (0 : Int) ≤ pre.length := Int.natCast_nonneg _
      have hcond' : (F : Int) - (f + countFalse pre) < Q := by
        simp [countFalse] at hcond
        omega
      simp only [List.cons_append]
      rw [replicateLoop_cons_true]
      have hcfl : countFalse pre ≤ (pre.length : Int) := by
        have ht := countTrue_nonneg pre
        have := countTrue_add_countFalse pre
        omega
      rw [if_neg (by omega)]
      by_cases h2 : s + 1 + ((F : Int) - (s + 1 + f)) < Q
      · rw [if_pos h2]
      · rw [if_neg h2]
        refine replicateLoop_early_failure F Q pre (s + 1) f rest (by omega) hcond'
  | false :: pre, s, f, rest, hlen, hcond => by
      simp only [List.length_cons] at hlen
      push_cast at hlen
      have hcond' : (F : Int) - (f + 1 + countFalse pre) < Q := by
        simp [countFalse] at hcond
        omega
      simp only [List.cons_append]
      rw [replicateLoop_cons_false]
      by_cases h2 : s + ((F : Int) - (s + (f + 1))) < Q
      · rw [if_pos h2]
      · rw [if_neg h2]
        refine replicateLoop_early_failure F Q pre s (f + 1) rest (by omega) (by omega)

/-- C1: with a freshly assigned version, the leader's `write` reports
`status=success` if and only if at least `Q` of the `F` follower replication
attempts succeed, for any subset of followers succeeding (leader.py lines
54-104 and 131-139). -/
theorem write_success_iff_quorum (F : Nat) (Q : Int) (st : Leader.LeaderState)
    (k v : String) (outcomes : List Bool) (hF : outcomes.length = F) :
    (Leader.write F Q st (some k) (some v) outcomes).2
        = Leader.WriteResponse.success k v (st.version_counter + 1)
      ↔ Q ≤ countTrue outcomes := by
  simp only [Leader.write]
  rw [replicate_to_followers_iff F Q outcomes hF]
  by_cases hq : Q ≤ countTrue outcomes
  · simp [hq]
  · simp [hq]

/-- Witness for C1: with F=5 followers, Q=3, and three successes among the
five arrival-ordered outcomes, `write` reports `success`. -/
theorem write_success_iff_quorum_witness :
    ([true, false, true, false, true] : List Bool).length = 5
    ∧ ((Leader.write 5 3 Leader.initLeader (some "k") (some "v")
          [true, false, true, false, true]).2
        = Leader.WriteResponse.success "k" "v" 1
      ↔ (3 : Int) ≤ countTrue [true, false, true, false, true]) :=
  ⟨rfl, write_success_iff_quorum 5 3 Leader.initLeader "k" "v"
    [true, false, true, false, true] rfl⟩

/-- C6: whenever a processed prefix of the arrival-ordered outcomes satisfies
`successCount + (F - successCount - failureCount) < Q`, the quorum replicator
returns `false` at that point, for any contents of the remaining outcomes
(leader.py lines 94-98). -/
theorem quorum_early_failure (F : Nat) (Q : Int) (pre : List Bool)
    (hcond : countTrue pre + ((F : Int) - countTrue pre - countFalse pre) < Q) :
    ∀ rest : List Bool, pre.length + rest.length ≤ F →
      Leader.replicate_to_followers F Q (pre ++ rest) = false := by
  intro rest hlen
  refine replicateLoop_early_failure F Q pre 0 0 rest ?_ (by omega)
  push_cast
  omega

/-- Witness for C6: with F=5, Q=4, after arrivals success-failure-failure the
quorum is unreachable and the decision is `false`, whatever the two
still-pending followers would have answered. -/
theorem quorum_early_failure_witness :
    (countTrue [true, false, false]
        + ((5 : Int) - countTrue [true, false, false] - countFalse [true, false, false]) < 4)
    ∧ ([true, false, false] : List Bool).length + ([true, true] : List Bool).length ≤ 5
    ∧ Leader.replicate_to_followers 5 4 ([true, false, false] ++ [true, true]) = false :=
  ⟨by decide, by decide,
   quorum_early_failure 5 4 [true, false, false] (by decide) [true, true] (by decide)⟩

/-- C10: the constraint `1 ≤ Q ≤ F` is not enforced: with `WRITE_QUORUM`
above the follower count every combination of outcomes yields `false` (so
every valid write reports `partial_success`), and with `WRITE_QUORUM ≤ 0`
every combination yields `true` (leader.py lines 23-31 and 75-100). -/
theorem quorum_bounds_unenforced :
    (∀ (F : Nat) (Q : Int) (outcomes : List Bool), outcomes.length = F → (F : Int) < Q →
        Leader.replicate_to_followers F Q outcomes = false
        ∧ ∀ (st : Leader.LeaderState) (k v : String),
            (Leader.write F Q st (some k) (some v) outcomes).2
              = Leader.WriteResponse.partial_success k v (st.version_counter + 1))
  ∧ (∀ (F : Nat) (Q : Int) (outcomes : List Bool), outcomes.length = F → Q ≤ 0 →
        Leader.replicate_to_followers F Q outcomes = true) := by
  constructor
  · intro F Q outcomes hlen hFQ
    have hcl := countTrue_le_length outcomes
    rw [hlen] at hcl
    have hfalse : Leader.replicate_to_followers F Q outcomes = false := by
      rw [replicate_to_followers_iff F Q outcomes hlen]
      have hns : ¬ Q ≤ countTrue outcomes := by omega
      simp [hns]
    refine ⟨hfalse, ?_⟩
    intro st k v
    simp [Leader.write, hfalse]
  · intro F Q outcomes hlen hQ
    rw [replicate_to_followers_iff F Q outcomes hlen]
    have hct := countTrue_nonneg outcomes
    have hle : Q ≤ countTrue outcomes := by omega
    simp [hle]

/-- Witness for C10: with 2 followers and Q=3 even two successes decide
`false` and the write degrades, while Q=-2 decides `true` on three
failures. -/
theorem quorum_bounds_unenforced_witness :
    (Leader.replicate_to_followers 2 3 [true, true] = false
      ∧ (Leader.write 2 3 Leader.initLeader (some "k") (some "v") [true, true]).2
          = Leader.WriteResponse.partial_success "k" "v" 1)
    ∧ Leader.replicate_to_followers 3 (-2) [false, false, false] = true :=
  ⟨⟨(quorum_bounds_unenforced.1 2 3 [true, true] rfl (by decide)).1,
    (quorum_bounds_unenforced.1 2 3 [true, true] rfl (by decide)).2 Leader.initLeader "k" "v"⟩,
   quorum_bounds_unenforced.2 3 (-2) [false, false, false] rfl (by decide)⟩

/-- C2: starting from a store with no entry for `k`, delivering any finite
sequence of replications, in any order and with any repetitions, leaves the
follower's entry for `k` at the maximum version ever delivered for `k`, with
a value that was delivered together with that version (follower.py lines
23-48). -/
theorem follower_idempotent_convergence (store : Store) (ds : List Delivery)
    (k : String) (h0 : store k = none) (hne : versionsFor k ds ≠ []) :
    ∃ e, runDeliveries store ds k = some e
      ∧ e.version ∈ versionsFor k ds
      ∧ (∀ m ∈ versionsFor k ds, m ≤ e.version)
      ∧ (k, e.value, e.version) ∈ ds := by
  obtain ⟨e, he⟩ := runDeliveries_some ds store k hne
  have hub := runDeliveries_ub ds store k e he
  rcases runDeliveries_origin ds store k e he with h | h
  · rw [h0] at h
    exact Option.noConfusion h
  · exact ⟨e, he, mem_versionsFor k e.value e.version ds h, hub, h⟩

/-- Witness for C2: deliveries for `k` with versions 5, 3, 7, 2 in that
arrival order leave the follower's entry for `k` at version 7. -/
theorem follower_idempotent_convergence_witness :
    emptyStore "k" = none
    ∧ versionsFor "k" [("k", "a", 5), ("k", "b", 3), ("k", "c", 7), ("k", "d", 2)] ≠ []
    ∧ (∃ e, runDeliveries emptyStore
          [("k", "a", 5), ("k", "b", 3), ("k", "c", 7), ("k", "d", 2)] "k" = some e
        ∧ e.version ∈ versionsFor "k" [("k", "a", 5), ("k", "b", 3), ("k", "c", 7), ("k", "d", 2)]
        ∧ (∀ m ∈ versionsFor "k" [("k", "a", 5), ("k", "b", 3), ("k", "c", 7), ("k", "d", 2)],
            m ≤ e.version)
        ∧ ("k", e.value, e.version) ∈ [("k", "a", 5), ("k", "b", 3), ("k", "c", 7), ("k", "d", 2)]) :=
  ⟨rfl, by decide,
   follower_idempotent_convergence emptyStore
     [("k", "a", 5), ("k", "b", 3), ("k", "c", 7), ("k", "d", 2)] "k" rfl (by decide)⟩

/-- C3: the follower's `replicate` applies the incoming write exactly when no
entry exists for the key or the incoming version is strictly greater; a stale
version (ties included) leaves the store unchanged and is acknowledged with
HTTP 200 and `updated=false` (follower.py lines 34-48). -/
theorem follower_putIfNewer_semantics (store : Store) (k v : String) (n : Nat) :
    ((Follower.replicate store ⟨some k, some v, some n⟩).2 = .acked true
        ↔ store k = none ∨ ∃ e, store k = some e ∧ e.version < n)
  ∧ ((Follower.replicate store ⟨some k, some v, some n⟩).2 = .acked true
        → (Follower.replicate store ⟨some k, some v, some n⟩).1
            = fun k' => if k' = k then some ⟨v, n⟩ else store k')
  ∧ (∀ e, store k = some e → n ≤ e.version
        → (Follower.replicate store ⟨some k, some v, some n⟩).1 = store
          ∧ (Follower.replicate store ⟨some k, some v, some n⟩).2 = .acked false
          ∧ statusCode (Follower.replicate store ⟨some k, some v, some n⟩).2 = 200) := by
  cases h0 : store k with
  | none =>
    have hres : Follower.replicate store ⟨some k, some v, some n⟩
        = (fun k' => if k' = k then some ⟨v, n⟩ else store k', .acked true) := by
      simp [Follower.replicate, h0]
    refine ⟨?_, ?_, ?_⟩
    · rw [hres]
      constructor
      · intro _
        exact Or.inl rfl
      · intro _
        rfl
    · intro _
      rw [hres]
    · intro e he
      exact Option.noConfusion he
  | some e0 =>
    by_cases h1 : n > e0.version
    · have hres : Follower.replicate store ⟨some k, some v, some n⟩
          = (fun k' => if k' = k then some ⟨v, n⟩ else store k', .acked true) := by
        simp [Follower.replicate, h0, h1]
      refine ⟨?_, ?_, ?_⟩
      · rw [hres]
        constructor
        · intro _
          exact Or.inr ⟨e0, rfl, h1⟩
        · intro _
          rfl
      · intro _
        rw [hres]
      · intro e he hn
        injection he with he
        rw [← he] at hn
        omega
    · have hres : Follower.replicate store ⟨some k, some v, some n⟩
          = (store, .acked false) := by
        simp [Follower.replicate, h0, h1]
      refine ⟨?_, ?_, ?_⟩
      · rw [hres]
        constructor
        · intro hc
          exact absurd hc (by simp)
        · rintro (hnone | ⟨e, he, hv⟩)
          · exact Option.noConfusion hnone
          · injection he with he
            rw [← he] at hv
            exact absurd hv (by omega)
      · intro hc
        rw [hres] at hc
        exact absurd hc (by simp)
      · intro e he hn
        rw [hres]
        exact ⟨rfl, rfl, rfl⟩

/-- Witness for C3: a stale replication (incoming version 5 against stored
version 5) leaves the store unchanged and is acknowledged with HTTP 200 and
`updated=false`. -/
theorem follower_putIfNewer_semantics_witness :
    (Follower.replicate (fun k' => if k' = "k" then some ⟨"old", 5⟩ else none)
        ⟨some "k", some "new", some 5⟩).1
      = (fun k' => if k' = "k" then some ⟨"old", 5⟩ else none)
    ∧ (Follower.replicate (fun k' => if k' = "k" then some ⟨"old", 5⟩ else none)
        ⟨some "k", some "new", some 5⟩).2 = .acked false
    ∧ statusCode (Follower.replicate (fun k' => if k' = "k" then some ⟨"old", 5⟩ else none)
        ⟨some "k", some "new", some 5⟩).2 = 200 :=
  (follower_putIfNewer_semantics (fun k' => if k' = "k" then some ⟨"old", 5⟩ else none)
    "k" "new" 5).2.2 ⟨"old", 5⟩ (by simp) (by decide)

/-- C4: when the quorum is not met, `write` reports `partial_success` still
carrying the assigned version, the leader's store keeps the write, and a
subsequent leader `read` returns the just-written value and version
(leader.py lines 124-139 and 142-156). -/
theorem write_partial_success_durable (F : Nat) (Q : Int) (st : Leader.LeaderState)
    (k v : String) (outcomes : List Bool)
    (hq : Leader.replicate_to_followers F Q outcomes = false) :
    (Leader.write F Q st (some k) (some v) outcomes).2
        = Leader.WriteResponse.partial_success k v (st.version_counter + 1)
    ∧ (Leader.write F Q st (some k) (some v) outcomes).1.data_store k
        = some ⟨v, st.version_counter + 1⟩
    ∧ Leader.read (Leader.write F Q st (some k) (some v) outcomes).1 (some k)
        = Leader.ReadResponse.found k v (st.version_counter + 1) := by
  have hstate : (Leader.write F Q st (some k) (some v) outcomes).1
      = ⟨fun k' => if k' = k then some ⟨v, st.version_counter + 1⟩ else st.data_store k',
         st.version_counter + 1⟩ := by
    simp [Leader.write, hq]
  refine ⟨?_, ?_, ?_⟩
  · simp [Leader.write, hq]
  · rw [hstate]
    simp
  · rw [hstate]
    simp [Leader.read]

/-- Witness for C4: with F=5, Q=3 and only 2 follower successes, the write
degrades to `partial_success` but the leader still reads back the value. -/
theorem write_partial_success_durable_witness :
    Leader.replicate_to_followers 5 3 [true, false, false, true, false] = false
    ∧ ((Leader.write 5 3 Leader.initLeader (some "k") (some "v")
          [true, false, false, true, false]).2
        = Leader.WriteResponse.partial_success "k" "v" 1
      ∧ (Leader.write 5 3 Leader.initLeader (some "k") (some "v")
          [true, false, false, true, false]).1.data_store "k" = some ⟨"v", 1⟩
      ∧ Leader.read (Leader.write 5 3 Leader.initLeader (some "k") (some "v")
          [true, false, false, true, false]).1 (some "k")
        = Leader.ReadResponse.found "k" "v" 1) :=
  ⟨by decide,
   write_partial_success_durable 5 3 Leader.initLeader "k" "v"
     [true, false, false, true, false] (by decide)⟩

/-- Versions assigned by a run of writes: each exceeds the starting counter
and the sequence is strictly increasing. -/
theorem runWrites_versions (F : Nat) (Q : Int) :
    ∀ (reqs : List Leader.WriteRequest) (st : Leader.LeaderState),
      (∀ m ∈ Leader.assignedVersions (Leader.runWrites F Q st reqs).2,
          st.version_counter < m)
      ∧ List.Pairwise (· < ·) (Leader.assignedVersions (Leader.runWrites F Q st reqs).2)
  | [], st => by
      simp [Leader.runWrites, Leader.assignedVersions]
  | r :: rs, st => by
      obtain ⟨ok, ov, outs⟩ := r
      cases ok with
      | none =>
        have ih := runWrites_versions F Q rs st
        simpa [Leader.runWrites, Leader.write, Leader.assignedVersions, Leader.versionOf]
          using ih
      | some k =>
        cases ov with
        | none =>
          have ih := runWrites_versions F Q rs st
          simpa [Leader.runWrites, Leader.write, Leader.assignedVersions, Leader.versionOf]
            using ih
        | some v =>
          have ih := runWrites_versions F Q rs
            ⟨fun k' => if k' = k then some ⟨v, st.version_counter + 1⟩ else st.data_store k',
             st.version_counter + 1⟩
          by_cases hq : Leader.replicate_to_followers F Q outs
          · have hrun : Leader.runWrites F Q st (⟨some k, some v, outs⟩ :: rs)
                = ((Leader.runWrites F Q
                      ⟨fun k' => if k' = k then some ⟨v, st.version_counter + 1⟩
                           else st.data_store k',
                       st.version_counter + 1⟩ rs).1,
                   Leader.WriteResponse.success k v (st.version_counter + 1)
                     :: (Leader.runWrites F Q
                          ⟨fun k' => if k' = k then some ⟨v, st.version_counter + 1⟩
                               else st.data_store k',
                           st.version_counter + 1⟩ rs).2) := by
              simp [Leader.runWrites, Leader.write, hq]
            rw [hrun]
            have hav : ∀ l, Leader.assignedVersions
                  (Leader.WriteResponse.success k v (st.version_counter + 1) :: l)
                = (st.version_counter + 1) :: Leader.assignedVersions l := by
              intro l
              simp [Leader.assignedVersions, Leader.versionOf]
            rw [hav]
            constructor
            · intro m hm
              rcases List.mem_cons.mp hm with hm | hm
              · omega
              · have hlt : st.version_counter + 1 < m := ih.1 m hm
                omega
            · exact List.Pairwise.cons (fun m hm => ih.1 m hm) ih.2
          · have hrun : Leader.runWrites F Q st (⟨some k, some v, outs⟩ :: rs)
                = ((Leader.runWrites F Q
                      ⟨fun k' => if k' = k then some ⟨v, st.version_counter + 1⟩
                           else st.data_store k',
                       st.version_counter + 1⟩ rs).1,
                   Leader.WriteResponse.partial_success k v (st.version_counter + 1)
                     :: (Leader.runWrites F Q
                          ⟨fun k' => if k' = k then some ⟨v, st.version_counter + 1⟩
                               else st.data_store k',
                           st.version_counter + 1⟩ rs).2) := by
              simp [Leader.runWrites, Leader.write, hq]
            rw [hrun]
            have hav : ∀ l, Leader.assignedVersions
                  (Leader.WriteResponse.partial_success k v (st.version_counter + 1) :: l)
                = (st.version_counter + 1) :: Leader.assignedVersions l := by
              intro l
              simp [Leader.assignedVersions, Leader.versionOf]
            rw [hav]
            constructor
            · intro m hm
              rcases List.mem_cons.mp hm with hm | hm
              · omega
              · have hlt : st.version_counter + 1 < m := ih.1 m hm
                omega
            · exact List.Pairwise.cons (fun m hm => ih.1 m hm) ih.2

/-- C5: over any sequence of write requests processed by the leader, the
versions assigned to accepted writes are strictly increasing process-wide,
whatever keys are written (leader.py lines 119-122). -/
theorem leader_versions_strictly_increasing (F : Nat) (Q : Int)
    (reqs : List Leader.WriteRequest) (st : Leader.LeaderState) :
    List.Pairwise (· < ·)
      (Leader.assignedVersions (Leader.runWrites F Q st reqs).2) :=
  (runWrites_versions F Q reqs st).2

/-- C7: on every node the stored version for each key never decreases: the
leader's unconditional put applies a counter value above every stored
version, and the follower's replicate applies only strictly greater
versions (leader.py lines 119-129, follower.py lines 34-48). -/
theorem version_never_decreases :
    (∀ (F : Nat) (Q : Int) (st : Leader.LeaderState) (key value : Option String)
        (outcomes : List Bool),
        (∀ k0 e0, st.data_store k0 = some e0 → e0.version ≤ st.version_counter) →
        ∀ k e e', st.data_store k = some e →
          (Leader.write F Q st key value outcomes).1.data_store k = some e' →
          e.version ≤ e'.version)
  ∧ (∀ (store : Store) (req : ReplicateRequest) (k : String) (e e' : Entry),
        store k = some e → (Follower.replicate store req).1 k = some e' →
        e.version ≤ e'.version) := by
  constructor
  · intro F Q st key value outcomes hinv k e e' he h'
    cases key with
    | none =>
      cases value with
      | none =>
        simp only [Leader.write] at h'
        rw [he] at h'
        injection h' with h2
        exact le_of_eq (congrArg Entry.version h2)
      | some _ =>
        simp only [Leader.write] at h'
        rw [he] at h'
        injection h' with h2
        exact le_of_eq (congrArg Entry.version h2)
    | some k0 =>
      cases value with
      | none =>
        simp only [Leader.write] at h'
        rw [he] at h'
        injection h' with h2
        exact le_of_eq (congrArg Entry.version h2)
      | some v0 =>
        have hstore : (Leader.write F Q st (some k0) (some v0) outcomes).1.data_store k
            = if k = k0 then some ⟨v0, st.version_counter + 1⟩ else st.data_store k := by
          by_cases hq : Leader.replicate_to_followers F Q outcomes <;>
            simp [Leader.write, hq]
        rw [hstore] at h'
        by_cases hk : k = k0
        · rw [if_pos hk] at h'
          injection h' with h2
          have hle := hinv k e he
          rw [← h2]
          exact le_trans hle (Nat.le_succ _)
        · rw [if_neg hk] at h'
          rw [he] at h'
          injection h' with h2
          exact le_of_eq (congrArg Entry.version h2)
  · intro store req k e e' he h'
    obtain ⟨ok, ov, onum⟩ := req
    cases ok with
    | none =>
      cases ov <;> cases onum <;>
        · simp only [Follower.replicate] at h'
          rw [he] at h'
          injection h' with h2
          exact le_of_eq (congrArg Entry.version h2)
    | some k1 =>
      cases ov with
      | none =>
        cases onum <;>
          · simp only [Follower.replicate] at h'
            rw [he] at h'
            injection h' with h2
            exact le_of_eq (congrArg Entry.version h2)
      | some v1 =>
        cases onum with
        | none =>
          simp only [Follower.replicate] at h'
          rw [he] at h'
          injection h' with h2
          exact le_of_eq (congrArg Entry.version h2)
        | some n1 =>
          obtain ⟨e2, h, h2⟩ := applyDelivery_mono store (k1, v1, n1) k e he
          have hEq : applyDelivery store (k1, v1, n1) k
              = (Follower.replicate store ⟨some k1, some v1, some n1⟩).1 k := rfl
          rw [hEq] at h
          rw [h'] at h
          injection h with h3
          rw [h3]
          exact h2

/-- Witness for C7: a leader write lifts version 1 to the fresh version 2,
and a follower replicate lifts version 5 to the delivered version 7. -/
theorem version_never_decreases_witness :
    ((⟨"x", 1⟩ : Entry).version ≤ (⟨"v", 2⟩ : Entry).version)
    ∧ ((⟨"old", 5⟩ : Entry).version ≤ (⟨"new", 7⟩ : Entry).version) :=
  ⟨version_never_decreases.1 5 3 ⟨fun _ => some ⟨"x", 1⟩, 1⟩ (some "a") (some "v") []
      (by
        intro k0 e0 h
        have h2 := Option.some.inj h
        rw [← h2])
      "a" ⟨"x", 1⟩ ⟨"v", 2⟩ rfl (by decide),
   version_never_decreases.2 (fun _ => some ⟨"old", 5⟩) ⟨some "k", some "new", some 7⟩
      "k" ⟨"old", 5⟩ ⟨"new", 7⟩ rfl (by decide)⟩

/-- C8: a write with a missing key or value, and a replicate with a missing
key, value or version, are rejected with a 400 response and have no side
effect: the store is unchanged and the version counter is not incremented
(leader.py lines 112-117, follower.py lines 26-32). -/
theorem validation_no_side_effect :
    (∀ (F : Nat) (Q : Int) (st : Leader.LeaderState) (key value : Option String)
        (outcomes : List Bool), key = none ∨ value = none →
        Leader.write F Q st key value outcomes = (st, Leader.WriteResponse.badRequest))
  ∧ (∀ (store : Store) (req : ReplicateRequest),
        req.key = none ∨ req.value = none ∨ req.version = none →
        Follower.replicate store req = (store, ReplicateResponse.badRequest)) := by
  constructor
  · intro F Q st key value outcomes h
    rcases h with h | h
    · subst h
      cases value <;> rfl
    · subst h
      cases key <;> rfl
  · intro store req h
    obtain ⟨ok, ov, onum⟩ := req
    cases ok with
    | none => cases ov <;> cases onum <;> rfl
    | some k1 =>
      cases ov with
      | none => cases onum <;> rfl
      | some v1 =>
        cases onum with
        | none => rfl
        | some n1 =>
          rcases h with h | h | h <;> exact Option.noConfusion h

/-- Witness for C8: a write without a key and a replicate without a value
are both rejected as bad requests with the state returned untouched. -/
theorem validation_no_side_effect_witness :
    Leader.write 5 3 Leader.initLeader none (some "v") []
      = (Leader.initLeader, Leader.WriteResponse.badRequest)
    ∧ Follower.replicate emptyStore ⟨some "k", none, some 1⟩
      = (emptyStore, ReplicateResponse.badRequest) :=
  ⟨validation_no_side_effect.1 5 3 Leader.initLeader none (some "v") [] (Or.inl rfl),
   validation_no_side_effect.2 emptyStore ⟨some "k", none, some 1⟩ (Or.inr (Or.inl rfl))⟩

/-- C9: a stale replication is acknowledged with HTTP 200 without applying
the write, the leader counts that acknowledgment as a replication success,
and a write whose five outcomes are all such stale acks still reports
`status=success` (leader.py lines 42-51, follower.py lines 45-48). -/
theorem stale_ack_counts_toward_quorum (store : Store) (k v : String) (n : Nat)
    (e : Entry) (he : store k = some e) (hn : n ≤ e.version) :
    (Follower.replicate store ⟨some k, some v, some n⟩).1 = store
    ∧ (Follower.replicate store ⟨some k, some v, some n⟩).2 = .acked false
    ∧ followerAck (Follower.replicate store ⟨some k, some v, some n⟩).2 = true
    ∧ (∀ (st : Leader.LeaderState) (k' v' : String),
        (Leader.write 5 3 st (some k') (some v')
            (List.replicate 5 (followerAck (Follower.replicate store ⟨some k, some v, some n⟩).2))).2
          = Leader.WriteResponse.success k' v' (st.version_counter + 1)) := by
  have hng : ¬ n > e.version := by omega
  have hres : Follower.replicate store ⟨some k, some v, some n⟩ = (store, .acked false) := by
    simp [Follower.replicate, he, hng]
  refine ⟨by rw [hres], by rw [hres], by rw [hres]; rfl, ?_⟩
  intro st k' v'
  rw [hres]
  have hack : followerAck (ReplicateResponse.acked false) = true := rfl
  rw [hack]
  have hq : Leader.replicate_to_followers 5 3 [true, true, true, true, true] = true := by
    decide
  simp [Leader.write, hq]

/-- Witness for C9: an incoming version 5 against stored version 5 is not
applied yet is acknowledged, and five such acks make a write succeed. -/
theorem stale_ack_counts_toward_quorum_witness :
    (Follower.replicate (fun _ => some ⟨"old", 5⟩) ⟨some "k", some "new", some 5⟩).1
      = (fun _ => some (⟨"old", 5⟩ : Entry))
    ∧ (Follower.replicate (fun _ => some ⟨"old", 5⟩) ⟨some "k", some "new", some 5⟩).2
      = .acked false
    ∧ followerAck (Follower.replicate (fun _ => some ⟨"old", 5⟩)
        ⟨some "k", some "new", some 5⟩).2 = true
    ∧ (Leader.write 5 3 Leader.initLeader (some "a") (some "b")
          (List.replicate 5 (followerAck (Follower.replicate (fun _ => some ⟨"old", 5⟩)
            ⟨some "k", some "new", some 5⟩).2))).2
        = Leader.WriteResponse.success "a" "b" 1 := by
  have h := stale_ack_counts_toward_quorum (fun _ => some ⟨"old", 5⟩) "k" "new" 5
    ⟨"old", 5⟩ rfl (Nat.le_refl 5)
  exact ⟨h.1, h.2.1, h.2.2.1, h.2.2.2 Leader.initLeader "a" "b"⟩

end RepKV
